import Mathlib

/-!
Verification of the SPARQL-based constraint component core of pySHACL
(file pyshacl/constraints/sparql/sparql_based_constraint_components.py).

The Python source is shallowly embedded: rdflib terms become the inductive
type RDFNode, Python dicts become association lists with first-match lookup
and Python-style update (replace in place, else append), Python sets of
violation signals become duplicate-free lists built with sadd, raised
exceptions become Except results, and the process-wide validator cache plus
the mutable validator instances become an explicit PyState threaded through
the constructor call.  External collaborators (the SPARQL query engine, the
SPARQLQueryHelper, make_v_result) appear as function parameters; the code
of this file only ever inspects their results, exactly as the source does.
-/

deriving instance DecidableEq for Except

/-- An rdflib term.  `litStr` is a Literal whose Python `.value` is a str,
`litBool` one whose `.value` is a bool, `litInt` one whose `.value` is an
int; `uri` is a URIRef and `bnode` a BNode. -/
inductive RDFNode where
  | uri (s : String)
  | bnode (s : String)
  | litStr (s : String)
  | litBool (b : Bool)
  | litInt (n : Int)
deriving DecidableEq

/-- Python truthiness of an rdflib term.  URIRef and BNode subclass str, so
they are truthy iff non-empty; rdflib Literal.__bool__ returns the
truthiness of the parsed `.value` (bool of a str is non-emptiness, of a
bool is itself, of an int is being non-zero). -/
def RDFNode.truthy : RDFNode → Bool
  | .uri s => !s.isEmpty
  | .bnode s => !s.isEmpty
  | .litStr s => !s.isEmpty
  | .litBool b => b
  | .litInt n => n != 0

/-- Python str() of an rdflib term: the IRI for a URIRef, the id for a
BNode, the lexical form for a Literal. -/
def pyStr : RDFNode → String
  | .uri s => s
  | .bnode s => s
  | .litStr s => s
  | .litBool b => if b then "true" else "false"
  | .litInt n => toString n

/-- isinstance(m, rdflib.Literal) and isinstance(m.value, str). -/
def RDFNode.isLitStr : RDFNode → Bool
  | .litStr _ => true
  | _ => false

/-- The `.value` of a string literal (defaulting to "" elsewhere; only ever
used after an isLitStr check, as in the source). -/
def RDFNode.litVal : RDFNode → String
  | .litStr s => s
  | _ => ""

/-- str form used in make_messages for a bound parameter value: the source
runs `v = v.value` when v is a Literal and then `str(v)`, so a bool literal
prints as Python prints True or False, while a URIRef or BNode prints via
str() directly. -/
def paramStr : RDFNode → String
  | .litStr s => s
  | .litBool b => if b then "True" else "False"
  | .litInt n => toString n
  | .uri s => s
  | .bnode s => s

section AssocMap

variable {κ α : Type} [DecidableEq κ]

/-- Python dict lookup: first (and in a real dict only) entry with the key. -/
def aget (d : List (κ × α)) (k : κ) : Option α :=
  (d.find? (fun p => decide (p.1 = k))).map (fun p => p.2)

/-- Python dict single-key assignment d[k] = v: replace in place when the
key is present (a real dict holds it once), else append at the end
(insertion order preserved). -/
def aset : List (κ × α) → κ → α → List (κ × α)
  | [], k, v => [(k, v)]
  | p :: rest, k, v => if p.1 = k then (k, v) :: rest else p :: aset rest k v

/-- Python dict.update(other): assign every entry of the second dict onto
the first, in order. -/
def aupd (d other : List (κ × α)) : List (κ × α) :=
  other.foldl (fun acc p => aset acc p.1 p.2) d

/-- dict.keys() -/
def akeys (d : List (κ × α)) : List κ := d.map (fun p => p.1)

/-- The key list of a genuine Python dict has no duplicates. -/
def keysDistinct (d : List (κ × α)) : Prop := (akeys d).Nodup

instance (d : List (κ × α)) : Decidable (keysDistinct d) := by
  unfold keysDistinct
  infer_instance

end AssocMap

/-- Python set.add on a set modelled as a duplicate-free list (insertion
order retained, as an iteration order). -/
def sadd {α : Type} [DecidableEq α] (s : List α) (a : α) : List α :=
  if a ∈ s then s else s ++ [a]

/-- A raw violation signal as produced by a validator's validate method:
(value, False) and (value, True) from the boolean branches, or
(value, (this, path, value2)) from a tabular result row. -/
inductive Signal where
  | bool (b : Bool)
  | tuple (t p v : Option RDFNode)
deriving DecidableEq

/-- The arguments this core passes to the external make_v_result builder
for one violation; extra_messages records the content of the list passed,
at the moment of the call. -/
structure Report where
  focus : RDFNode
  value_node : Option RDFNode
  result_path : Option RDFNode
  constraint_component : RDFNode
  extra_messages : List RDFNode
deriving DecidableEq

/-- Bindings of SPARQL variable names to terms (a Python dict). -/
abbrev Bindings : Type := List (String × RDFNode)

/-- One result row of a tabular (SELECT) query: r[name] raises KeyError
exactly when aget returns none. -/
abbrev Row : Type := List (String × RDFNode)

/-- The external SPARQLQueryHelper collaborator, reduced to the members the
source reads inside validate: param_bind_map, pre_bind_variables (returning
initial bindings and rewritten query text) and apply_prefixes. -/
structure QueryHelper where
  param_bind_map : Bindings
  pre_bind_variables : RDFNode → RDFNode → List String → Bindings × String
  apply_prefixes : String → String

/-- The schema (shapes) graph, reduced to the accessor the source uses:
g.objects(node, predicate), a finite multiset of terms given as a list.
The source wraps every such call in set(...), modelled with List.dedup. -/
structure SchemaGraph where
  objects : RDFNode → RDFNode → List RDFNode

def RDF_type : RDFNode := .uri "http://www.w3.org/1999/02/22-rdf-syntax-ns#type"
def SH_ask : RDFNode := .uri "http://www.w3.org/ns/shacl#ask"
def SH_select : RDFNode := .uri "http://www.w3.org/ns/shacl#select"
def SH_message : RDFNode := .uri "http://www.w3.org/ns/shacl#message"
def SH_SPARQLSelectValidator : RDFNode := .uri "http://www.w3.org/ns/shacl#SPARQLSelectValidator"
def SH_SPARQLAskValidator : RDFNode := .uri "http://www.w3.org/ns/shacl#SPARQLAskValidator"

/-! ### Message templating (SPARQLConstraintComponentValidator.make_messages) -/

def lbrace : Char := Char.ofNat 123

def rbrace : Char := Char.ofNat 125

def dollar : Char := Char.ofNat 36

/-- The replace target "\x7b$" + str(a) + "\x7d" built in make_messages. -/
def phChars (name : String) : List Char :=
  lbrace :: dollar :: name.toList ++ [rbrace]

/-- Python str.replace(pat, rep) on char lists, with fuel for structural
recursion: scan left to right, on a match emit rep and continue after the
consumed pattern (the replacement is not rescanned), else copy one char. -/
def replacePyF (pat rep : List Char) : Nat → List Char → List Char
  | _, [] => []
  | 0, s => s
  | fuel + 1, c :: cs =>
    if pat.isPrefixOf (c :: cs) ∧ pat ≠ [] then
      rep ++ replacePyF pat rep fuel (List.drop pat.length (c :: cs))
    else
      c :: replacePyF pat rep fuel cs

/-- Python str.replace(pat, rep, -1); the length of the subject string is
always enough fuel since every step consumes at least one char. -/
def replacePy (pat rep s : List Char) : List Char :=
  replacePyF pat rep s.length s

/-- The loop `for a, v in params_map.items(): this_m = this_m.replace(...)`
of make_messages, over a params map whose values are already strings. -/
def applyParamsL (m : List (String × String)) (s : List Char) : List Char :=
  m.foldl (fun acc av => replacePy (phChars av.1) av.2.toList acc) s

/-- params_map with each value v turned into str(v) (v.value first when v
is a Literal), as make_messages does before substituting. -/
def pmStr (pm : List (String × RDFNode)) : List (String × String) :=
  pm.map (fun av => (av.1, paramStr av.2))

/-- SPARQLConstraintComponentValidator.make_messages with a non-None
params_map: one substituted message per template. -/
def make_messages (msgs : List String) (pm : List (String × RDFNode)) : List String :=
  msgs.map (fun m => (applyParamsL (pmStr pm) m.toList).asString)

/-- A message template presented as its decomposition into alternating
literal text and placeholders: segments (literal, name) followed by a final
literal.  joinTemplateL rebuilds the template text. -/
def joinTemplateL : List (String × String) → String → List Char
  | [], tl => tl.toList
  | (s, n) :: rest, tl => s.toList ++ phChars n ++ joinTemplateL rest tl

def joinTemplate (segs : List (String × String)) (tl : String) : String :=
  (joinTemplateL segs tl).asString

/-- Modelled from the spec: simultaneous substitution over a decomposed
template.  Every placeholder occurrence whose name is bound in the map is
replaced by the string form of that name's value (first binding), every
other character of the template is kept verbatim. -/
def specSubstL (m : List (String × String)) : List (String × String) → String → List Char
  | [], tl => tl.toList
  | (s, n) :: rest, tl =>
    s.toList ++ (match aget m n with
      | some v => v.toList
      | none => phChars n) ++ specSubstL m rest tl

def specSubstMessage (segs : List (String × String)) (tl : String)
    (pm : List (String × RDFNode)) : String :=
  (specSubstL (pmStr pm) segs tl).asString

/-- Conditions under which sequential replacement agrees with simultaneous
substitution: parameter names free of the closing brace, parameter values
free of the opening brace (a value containing placeholder text is
re-substituted by later replace passes, as the counterexample shows). -/
def pmOK (m : List (String × String)) : Prop :=
  ∀ av ∈ m, rbrace ∉ av.1.toList ∧ lbrace ∉ av.2.toList

instance (m : List (String × String)) : Decidable (pmOK m) := by
  unfold pmOK
  infer_instance

/-- Well-formed decomposition: literal segments free of the opening brace,
placeholder names free of both braces. -/
def segsOK (segs : List (String × String)) : Prop :=
  ∀ sg ∈ segs, lbrace ∉ sg.1.toList ∧ lbrace ∉ sg.2.toList ∧ rbrace ∉ sg.2.toList

instance (segs : List (String × String)) : Decidable (segsOK segs) := by
  unfold segsOK
  infer_instance

/-! ### SelectConstraintValidator.validate -/

def optTruthy : Option RDFNode → Bool
  | some x => x.truthy
  | none => false

/-- The truthiness test of `if f is True or (isinstance(f, rdflib.Literal)
and f.value)`: a query result binding is always an rdflib term, never the
Python object True, so only the Literal branch can fire. -/
def failureTruthy : RDFNode → Bool
  | .litStr s => !s.isEmpty
  | .litBool b => b
  | .litInt n => n != 0
  | .uri _ => false
  | .bnode _ => false

/-- The body of the `for r in results` loop for one row: look up path,
value and this (KeyError becomes none), emit the structured tuple when
`p or v2 or t` is truthy, else fall back to the failure field. -/
def rowSignal (v : RDFNode) (r : Row) : Option (RDFNode × Signal) :=
  let p := aget r "path"
  let v2 := aget r "value"
  let t := aget r "this"
  if optTruthy p || optTruthy v2 || optTruthy t then
    some (v, .tuple t p v2)
  else
    match aget r "failure" with
    | some f => if failureTruthy f then some (v, .bool true) else none
    | none => none

def processRow (v : RDFNode) (acc : List (RDFNode × Signal)) (r : Row) :
    List (RDFNode × Signal) :=
  match rowSignal v r with
  | some s => sadd acc s
  | none => acc

/-- bind_vals = param_bind_map.copy(); bind_vals.update(new_bind_vals or {}),
shared verbatim by both validate variants. -/
def computeBindVals (qh : Option QueryHelper) (nbv : Option Bindings) : Bindings :=
  let param : Bindings := match qh with
    | some q => q.param_bind_map
    | none => []
  let n : Bindings := match nbv with
    | some b => b
    | none => []
  aupd param n

/-- Per value node: pre_bind_variables(focus, v, bind_vals.keys()), then
apply_prefixes on the rewritten text, then init_binds.update(bind_vals);
also shared verbatim by both validate variants. -/
def computeInitBinds (qh : QueryHelper) (bindVals : Bindings) (focus v : RDFNode) :
    Bindings × String :=
  let ib := qh.pre_bind_variables focus v (akeys bindVals)
  (aupd ib.1 bindVals, qh.apply_prefixes ib.2)

/-- The text and initial bindings actually passed to target_graph.query for
one value node, covering the query_helper is None branch. -/
def queryArgsFor (qt : String) (qh : Option QueryHelper) (bindVals : Bindings)
    (focus v : RDFNode) : Bindings × String :=
  match qh with
  | none => ([], qt)
  | some q => computeInitBinds q bindVals focus v

/-- SelectConstraintValidator.validate.  exec is the external
target_graph.query returning the rows of the tabular result; an empty row
list covers `not results or len(results.bindings) < 1: continue`. -/
def selectValidateAux (qt : String) (qh : Option QueryHelper) (bindVals : Bindings)
    (focus : RDFNode) (exec : String → Bindings → List Row) :
    List RDFNode → List (RDFNode × Signal) → List (RDFNode × Signal)
  | [], acc => acc
  | v :: rest, acc =>
    let args := queryArgsFor qt qh bindVals focus v
    let rows := exec args.2 args.1
    selectValidateAux qt qh bindVals focus exec rest (rows.foldl (processRow v) acc)

def selectValidate (qt : String) (qh : Option QueryHelper) (nbv : Option Bindings)
    (focus : RDFNode) (vns : List RDFNode) (exec : String → Bindings → List Row) :
    List (RDFNode × Signal) :=
  selectValidateAux qt qh (computeBindVals qh nbv) focus exec vns []

/-! ### AskConstraintValidator.validate -/

/-- The boolean answer obtained for one value node; none models the
KeyError/AttributeError of a result without an interpretable askAnswer. -/
def askAnswerFor (qt : String) (qh : Option QueryHelper) (bindVals : Bindings)
    (focus v : RDFNode) (exec : String → Bindings → Option Bool) : Option Bool :=
  let args := queryArgsFor qt qh bindVals focus v
  exec args.2 args.1

def askValidateAux (qt : String) (qh : Option QueryHelper) (bindVals : Bindings)
    (focus : RDFNode) (exec : String → Bindings → Option Bool) :
    List RDFNode → List (RDFNode × Signal) → Except String (List (RDFNode × Signal))
  | [], acc => .ok acc
  | v :: rest, acc =>
    match askAnswerFor qt qh bindVals focus v exec with
    | none => .error "ASK Query did not return an askAnswer."
    | some answer =>
      askValidateAux qt qh bindVals focus exec rest
        (if answer = false then sadd acc (v, .bool false) else acc)

def askValidate (qt : String) (qh : Option QueryHelper) (nbv : Option Bindings)
    (focus : RDFNode) (vns : List RDFNode) (exec : String → Bindings → Option Bool) :
    Except String (List (RDFNode × Signal)) :=
  askValidateAux qt qh (computeBindVals qh nbv) focus exec vns []

/-! ### BoundShapeValidatorComponent.evaluate -/

/-- The fixed context of one BoundShapeValidatorComponent during evaluate:
the owning shape (is_property_shape, path()), the query helper's
param_bind_map and its bind_messages/bound_messages pair (set then read
within each iteration, hence a pure function of the argument map), the
constraint node, and `self.constraint.messages or []` which seeds the one
extra_messages list referenced by rept_kwargs. -/
structure EvalEnv where
  isPropertyShape : Bool
  shapePath : RDFNode
  paramBindMap : Bindings
  bindMsgs : Bindings → List RDFNode
  constraintComponent : RDFNode
  constraintMessages : List RDFNode

/-- One iteration of `for val, vio in violations`.  acc is the current
content of the single extra_messages list shared through the shallow
rept_kwargs.copy(): the iteration extends it with this violation's bound
messages and hands the grown list to make_v_result. -/
def processViolation (env : EvalEnv) (f : RDFNode) (acc : List RDFNode)
    (pv : RDFNode × Signal) : Except String (Report × List RDFNode) :=
  let val := pv.1
  let m1 := aset (aset env.paramBindMap "this" f) "value" val
  let msgArgsMap := if env.isPropertyShape then aset m1 "path" env.shapePath else m1
  let boundMessages := env.bindMsgs msgArgsMap
  let reportVal : Option RDFNode := if env.isPropertyShape then none else some val
  match pv.2 with
  | .bool false =>
    let acc' := acc ++ boundMessages
    .ok (⟨f, reportVal, none, env.constraintComponent, acc'⟩, acc')
  | .bool true => .error "Validation Failure generated by SPARQLConstraint."
  | .tuple t p v =>
    let vOut : Option RDFNode := match v with
      | none => reportVal
      | some x => some x
    let m2 := match v with
      | none => msgArgsMap
      | some x => aset msgArgsMap "value" x
    let m3 := match p with
      | none => m2
      | some x => aset m2 "path" x
    let m4 := match t with
      | none => m3
      | some x => aset m3 "this" x
    let newBound := env.bindMsgs m4
    let acc' := acc ++ newBound
    let focusOut := match t with
      | some tv => if tv.truthy then tv else f
      | none => f
    .ok (⟨focusOut, vOut, p, env.constraintComponent, acc'⟩, acc')

def processViolations (env : EvalEnv) (f : RDFNode) :
    List (RDFNode × Signal) → List RDFNode → Except String (List Report × List RDFNode)
  | [], acc => .ok ([], acc)
  | pv :: rest, acc =>
    match processViolation env f acc pv with
    | .error e => .error e
    | .ok rp =>
      match processViolations env f rest rp.2 with
      | .error e => .error e
      | .ok rs => .ok (rp.1 :: rs.1, rs.2)

/-- The `for f, value_nodes in focus_value_nodes.items()` loop.  validate
stands for self.validator.validate applied to the fixed target graph and
query helper; a ValidationFailure it raises is re-raised unchanged. -/
def evaluateAux (env : EvalEnv)
    (validate : RDFNode → List RDFNode → Except String (List (RDFNode × Signal))) :
    List (RDFNode × List RDFNode) → List RDFNode → List Report → Bool →
    Except String (Bool × List Report)
  | [], _, reports, nonConformant => .ok (!nonConformant, reports)
  | (f, vns) :: rest, acc, reports, nonConformant =>
    match validate f vns with
    | .error e => .error e
    | .ok viols =>
      match processViolations env f viols acc with
      | .error e => .error e
      | .ok rs =>
        evaluateAux env validate rest rs.2 (reports ++ rs.1)
          (nonConformant || !viols.isEmpty)

/-- BoundShapeValidatorComponent.evaluate: returns (not non_conformant,
reports) unless a ValidationFailure aborts the whole call. -/
def evaluateBound (env : EvalEnv)
    (validate : RDFNode → List RDFNode → Except String (List (RDFNode × Signal)))
    (focusValueNodes : List (RDFNode × List RDFNode)) :
    Except String (Bool × List Report) :=
  evaluateAux env validate focusValueNodes env.constraintMessages [] false

/-! ### SPARQLConstraintComponentValidator: resolution, cache, initialisers -/

inductive ValidatorKind where
  | select
  | ask
deriving DecidableEq

/-- The kind-determination part of SPARQLConstraintComponentValidator.__new__
on a cache miss (lines 136-159), in the exact shape of the source: first
the declared rdf:type values, then the presence of sh:select, then of
sh:ask, else the ConstraintLoadError. -/
def determineValidatorType (sg : SchemaGraph) (node : RDFNode) :
    Except String ValidatorKind :=
  let type_vals := (sg.objects node RDF_type).dedup
  let vt0 : Option ValidatorKind :=
    if type_vals.length > 0 then
      if SH_SPARQLSelectValidator ∈ type_vals then some .select
      else if SH_SPARQLAskValidator ∈ type_vals then some .ask
      else none
    else none
  let vt1 : Option ValidatorKind :=
    match vt0 with
    | some k => some k
    | none =>
      let sel_nodes := (sg.objects node SH_select).dedup
      if sel_nodes.length > 0 then some .select else none
  let vt2 : Option ValidatorKind :=
    match vt1 with
    | some k => some k
    | none =>
      let ask_nodes := (sg.objects node SH_ask).dedup
      if ask_nodes.length > 0 then some .ask else none
  match vt2 with
  | some k => .ok k
  | none =>
    .error "Validator must be of type sh:SPARQLSelectValidator or sh:SPARQLAskValidator and must have either a sh:select or a sh:ask predicate."

/-- One validator instance: its class (kind), the attributes set by
SPARQLConstraintComponentValidator.__init__ (node, messages, initialised)
and by the subclass __init__ (query_text). -/
structure ValidatorInst where
  kind : ValidatorKind
  node : RDFNode
  messages : List RDFNode
  query_text : String
  initialised : Bool
deriving DecidableEq

/-- A freshly allocated object (object.__new__) before any __init__ ran:
dummy attribute values, initialised not yet set (getattr default False). -/
def freshInst (k : ValidatorKind) (node : RDFNode) : ValidatorInst :=
  ⟨k, node, [], "", false⟩

/-- The sh:message collection and check of the base __init__ body (the loop
raises on the first message that is not a string-typed literal). -/
def collectMessages (sg : SchemaGraph) (node : RDFNode) : Except String (List RDFNode) :=
  let message_nodes := (sg.objects node SH_message).dedup
  if message_nodes.all (fun m => m.isLitStr) then .ok message_nodes
  else .error "Validator sh:message must be an RDF Literal of type xsd:string."

/-- SPARQLConstraintComponentValidator.__init__ (lines 191-207): a no-op
when the initialised flag is already set, else it stores the node, collects
and checks the sh:message literals, and sets the flag. -/
def sparqlValidatorBaseInit (sg : SchemaGraph) (node : RDFNode)
    (inst : ValidatorInst) : Except String ValidatorInst :=
  if inst.initialised then .ok inst
  else
    match collectMessages sg node with
    | .error e => .error e
    | .ok msgs => .ok { inst with node := node, messages := msgs, initialised := true }

def queryPred : ValidatorKind → RDFNode
  | .select => SH_select
  | .ask => SH_ask

def exactlyOneMsg : ValidatorKind → String
  | .select => "SelectValidator must have exactly one value for sh:select."
  | .ask => "AskValidator must have exactly one value for sh:ask."

def litStrMsg : ValidatorKind → String
  | .select => "SelectValidator sh:select must be an RDF Literal of type xsd:string."
  | .ask => "AskValidator sh:ask must be an RDF Literal of type xsd:string."

/-- The query-predicate part of AskConstraintValidator.__init__ /
SelectConstraintValidator.__init__: exactly one (deduplicated) value, which
must be a string-typed literal. -/
def readQueryText (sg : SchemaGraph) (node : RDFNode) (k : ValidatorKind) :
    Except String String :=
  match (sg.objects node (queryPred k)).dedup with
  | [q] => if q.isLitStr then .ok q.litVal else .error (litStrMsg k)
  | _ => .error (exactlyOneMsg k)

/-- The full __init__ of the dynamic class of inst: the base __init__
(guarded by the initialised flag) followed by the subclass body, which
always re-reads the query predicate of the node passed in and re-assigns
query_text. -/
def subclassInit (sg : SchemaGraph) (node : RDFNode) (inst : ValidatorInst) :
    Except String ValidatorInst :=
  match sparqlValidatorBaseInit sg node inst with
  | .error e => .error e
  | .ok b =>
    match readQueryText sg node b.kind with
    | .error e => .error e
    | .ok qt => .ok { b with query_text := qt }

/-- The process-wide validator_cache keyed by (id(shacl_graph.graph),
str(node)), with each cached entry carrying the object identity (a Nat)
and the object's current attributes, plus the allocator for fresh
identities. -/
structure PyState where
  cache : List ((Nat × String) × (Nat × ValidatorInst))
  nextId : Nat
deriving DecidableEq

/-- One call SPARQLConstraintComponentValidator(shacl_graph, node) under
CPython semantics of type.__call__: __new__ first (cache hit returns the
cached object, miss determines the kind, constructs and initialises the
subclass instance via validator_type(...), and caches it), after which
type(obj).__init__(obj, shacl_graph, node) runs again on whatever __new__
returned.  Exceptions leave already-performed cache writes in place, hence
the result pairs an Except with the final state. -/
def pyCall (sg : SchemaGraph) (gid : Nat) (node : RDFNode) (st : PyState) :
    Except String Nat × PyState :=
  let key : Nat × String := (gid, pyStr node)
  match aget st.cache key with
  | some entry =>
    match subclassInit sg node entry.2 with
    | .error e => (.error e, st)
    | .ok inst2 => (.ok entry.1, ⟨aset st.cache key (entry.1, inst2), st.nextId⟩)
  | none =>
    match determineValidatorType sg node with
    | .error e => (.error e, st)
    | .ok k =>
      match subclassInit sg node (freshInst k node) with
      | .error e => (.error e, st)
      | .ok inst =>
        let i := st.nextId
        let st1 : PyState := ⟨aset st.cache key (i, inst), i + 1⟩
        match subclassInit sg node inst with
        | .error e => (.error e, st1)
        | .ok inst2 => (.ok i, ⟨aset st1.cache key (i, inst2), st1.nextId⟩)

/-! ### Concrete inputs used by witnesses and counterexamples -/

/-- A node-shape evaluation context whose message binding returns the bound
value term, with no constraint-level extra messages. -/
def envN : EvalEnv :=
  ⟨false, .uri "unused", [],
   fun m => match aget m "value" with
     | some x => [x]
     | none => [], .uri "urn:cc", []⟩

/-- An ASK-style validate reporting every value node as a False signal. -/
def valFalse : RDFNode → List RDFNode → Except String (List (RDFNode × Signal)) :=
  fun _ vns => .ok (vns.map (fun v => (v, Signal.bool false)))

/-- A schema graph in which the IRI node n carries one sh:ask literal and
the blank node with the equal string form n carries nothing. -/
def sgAsk : SchemaGraph :=
  ⟨fun nd pred => if nd = .uri "n" ∧ pred = SH_ask then [.litStr "ASK"] else []⟩

/-- The state left by resolving the IRI node n of sgAsk from scratch. -/
def stAsk : PyState := ⟨[((7, "n"), (0, ⟨.ask, .uri "n", [], "ASK", true⟩))], 1⟩

/-! ### General lemmas about the association-map model -/

theorem aget_cons {κ α : Type} [DecidableEq κ] (p : κ × α) (rest : List (κ × α)) (k : κ) :
    aget (p :: rest) k = if p.1 = k then some p.2 else aget rest k := by
  by_cases hp : p.1 = k
  · unfold aget
    rw [List.find?_cons_of_pos _ (by simpa using hp), if_pos hp]
    rfl
  · unfold aget
    rw [List.find?_cons_of_neg _ (by simpa using hp), if_neg hp]

theorem aget_aset {κ α : Type} [DecidableEq κ] (d : List (κ × α)) (k k' : κ) (v : α) :
    aget (aset d k v) k' = if k' = k then some v else aget d k' := by
  induction d with
  | nil =>
    show aget [(k, v)] k' = _
    rw [aget_cons]
    by_cases hk : k' = k
    · rw [if_pos (hk ▸ rfl : k = k'), if_pos hk]
    · rw [if_neg (fun h => hk h.symm), if_neg hk]
  | cons p rest ih =>
    by_cases hp : p.1 = k
    · simp only [aset, if_pos hp]
      rw [aget_cons, aget_cons]
      by_cases hk : k' = k
      · rw [if_pos (hk ▸ rfl : k = k'), if_pos hk]
      · have hpk : ¬p.1 = k' := fun h => hk (by rw [← h, hp])
        rw [if_neg (fun h => hk h.symm), if_neg hk, if_neg hpk]
    · simp only [aset, if_neg hp]
      rw [aget_cons, aget_cons, ih]
      by_cases hq : p.1 = k'
      · have hk : ¬k' = k := fun h => hp (by rw [hq, h])
        rw [if_pos hq, if_pos hq, if_neg hk]
      · rw [if_neg hq, if_neg hq]

theorem aset_aset {κ α : Type} [DecidableEq κ] (d : List (κ × α)) (k : κ) (v w : α) :
    aset (aset d k v) k w = aset d k w := by
  induction d with
  | nil => simp [aset]
  | cons p rest ih =>
    by_cases hp : p.1 = k
    · simp only [aset, if_pos hp]
      simp [aset]
    · simp only [aset, if_neg hp, ih]

theorem aget_not_mem {κ α : Type} [DecidableEq κ] (d : List (κ × α)) (k : κ)
    (h : k ∉ akeys d) : aget d k = none := by
  induction d with
  | nil => rfl
  | cons p rest ih =>
    simp only [akeys, List.map_cons, List.mem_cons] at h
    push_neg at h
    rw [aget_cons, if_neg (fun hh => h.1 hh.symm)]
    exact ih (by simpa [akeys] using h.2)

theorem akeys_aset {κ α : Type} [DecidableEq κ] (d : List (κ × α)) (k : κ) (v : α) :
    akeys (aset d k v) = akeys d ∨ akeys (aset d k v) = akeys d ++ [k] := by
  induction d with
  | nil => right; simp [aset, akeys]
  | cons p rest ih =>
    by_cases hp : p.1 = k
    · left
      simp only [aset, if_pos hp]
      simp [akeys, hp]
    · simp only [aset, if_neg hp]
      rcases ih with h | h
      · left
        simp only [akeys, List.map_cons]
        rw [show List.map (fun (p : κ × α) => p.1) (aset rest k v) = akeys (aset rest k v) from rfl, h]
        rfl
      · right
        simp only [akeys, List.map_cons]
        rw [show List.map (fun (p : κ × α) => p.1) (aset rest k v) = akeys (aset rest k v) from rfl, h]
        rfl

theorem keysDistinct_aset {κ α : Type} [DecidableEq κ] (d : List (κ × α)) (k : κ) (v : α)
    (h : keysDistinct d) : keysDistinct (aset d k v) := by
  induction d with
  | nil => simp [aset, akeys, keysDistinct]
  | cons p rest ih =>
    unfold keysDistinct akeys at h
    simp only [List.map_cons, List.nodup_cons] at h
    by_cases hp : p.1 = k
    · rw [keysDistinct]
      simp only [aset, if_pos hp]
      simp only [akeys, List.map_cons, List.nodup_cons]
      exact ⟨by rw [← hp]; exact h.1, h.2⟩
    · rw [keysDistinct]
      simp only [aset, if_neg hp]
      simp only [akeys, List.map_cons, List.nodup_cons]
      refine ⟨?_, ih h.2⟩
      rcases akeys_aset rest k v with he | he
      · rw [show List.map (fun (p : κ × α) => p.1) (aset rest k v) = akeys (aset rest k v) from rfl, he]
        exact h.1
      · rw [show List.map (fun (p : κ × α) => p.1) (aset rest k v) = akeys (aset rest k v) from rfl, he]
        simp only [List.mem_append, List.mem_singleton]
        rintro (hc | hc)
        · exact h.1 hc
        · exact hp hc

theorem aget_aupd {κ α : Type} [DecidableEq κ] (d other : List (κ × α)) (k : κ)
    (h : keysDistinct other) :
    aget (aupd d other) k =
      match aget other k with
      | some v => some v
      | none => aget d k := by
  induction other generalizing d with
  | nil => rfl
  | cons p rest ih =>
    obtain ⟨a, b⟩ := p
    unfold keysDistinct akeys at h
    simp only [List.map_cons, List.nodup_cons] at h
    have step : aupd d ((a, b) :: rest) = aupd (aset d a b) rest := rfl
    rw [step, ih _ h.2, aget_cons]
    by_cases hk : a = k
    · have hrest : aget rest k = none := by
        apply aget_not_mem
        rw [← hk]
        simpa [akeys] using h.1
      rw [hrest, if_pos hk]
      rw [aget_aset, if_pos (by rw [hk] : k = a)]
    · have hrest := aget_aset d a k b
      rw [if_neg hk]
      rcases hfind : aget rest k with _ | w
      · show aget (aset d a b) k = aget d k
        rw [hrest, if_neg (fun hh => hk hh.symm)]
      · rfl

theorem keysDistinct_aupd {κ α : Type} [DecidableEq κ] (d other : List (κ × α))
    (h : keysDistinct d) : keysDistinct (aupd d other) := by
  induction other generalizing d with
  | nil => exact h
  | cons p rest ih => exact ih _ (keysDistinct_aset d p.1 p.2 h)

/-! ### Claim C3: resolution order of the validator kind -/

/-- Claim C3: for a rule node not found in the cache, the validator kind is
determined in the fixed order of the source: an explicit
sh:SPARQLSelectValidator rdf:type wins, then an explicit
sh:SPARQLAskValidator type, then the presence of any sh:select value, then
the presence of any sh:ask value, and otherwise a ConstraintLoadError is
raised; the successful result is always one of the two kinds. -/
theorem c3_resolution_order (sg : SchemaGraph) (node : RDFNode) :
    determineValidatorType sg node =
      (if SH_SPARQLSelectValidator ∈ sg.objects node RDF_type then
        Except.ok ValidatorKind.select
      else if SH_SPARQLAskValidator ∈ sg.objects node RDF_type then
        Except.ok ValidatorKind.ask
      else if sg.objects node SH_select ≠ [] then
        Except.ok ValidatorKind.select
      else if sg.objects node SH_ask ≠ [] then
        Except.ok ValidatorKind.ask
      else
        Except.error "Validator must be of type sh:SPARQLSelectValidator or sh:SPARQLAskValidator and must have either a sh:select or a sh:ask predicate.") := by
  unfold determineValidatorType
  by_cases h1 : SH_SPARQLSelectValidator ∈ sg.objects node RDF_type
  · have h1d : SH_SPARQLSelectValidator ∈ (sg.objects node RDF_type).dedup :=
      List.mem_dedup.mpr h1
    have hlen : 0 < (sg.objects node RDF_type).dedup.length :=
      List.length_pos.mpr (List.ne_nil_of_mem h1d)
    simp [hlen, h1d, h1]
  · by_cases h2 : SH_SPARQLAskValidator ∈ sg.objects node RDF_type
    · have h2d : SH_SPARQLAskValidator ∈ (sg.objects node RDF_type).dedup :=
        List.mem_dedup.mpr h2
      have hlen : 0 < (sg.objects node RDF_type).dedup.length :=
        List.length_pos.mpr (List.ne_nil_of_mem h2d)
      have h1d : SH_SPARQLSelectValidator ∉ (sg.objects node RDF_type).dedup :=
        fun hc => h1 (List.mem_dedup.mp hc)
      simp [hlen, h1d, h2d, h1, h2]
    · have h1d : SH_SPARQLSelectValidator ∉ (sg.objects node RDF_type).dedup :=
        fun hc => h1 (List.mem_dedup.mp hc)
      have h2d : SH_SPARQLAskValidator ∉ (sg.objects node RDF_type).dedup :=
        fun hc => h2 (List.mem_dedup.mp hc)
      by_cases h3 : sg.objects node SH_select ≠ []
      · have h3d : 0 < (sg.objects node SH_select).dedup.length :=
          List.length_pos.mpr (fun hc => h3 ((List.dedup_eq_nil _).mp hc))
        simp [h1d, h2d, h1, h2, h3, h3d]
      · push_neg at h3
        have h3d : ¬0 < (sg.objects node SH_select).dedup.length := by
          simp [h3]
        by_cases h4 : sg.objects node SH_ask ≠ []
        · have h4d : 0 < (sg.objects node SH_ask).dedup.length :=
            List.length_pos.mpr (fun hc => h4 ((List.dedup_eq_nil _).mp hc))
          simp [h1d, h2d, h1, h2, h3, h3d, h4, h4d]
        · push_neg at h4
          have h4d : ¬0 < (sg.objects node SH_ask).dedup.length := by
            simp [h4]
          simp [h1d, h2d, h1, h2, h3, h3d, h4, h4d]

/-! ### Claim C8: the two-level overlay of query bindings -/

/-- Claim C8: for every value node, the initial bindings passed to the
query are the binding helper's declared parameter bindings overlaid with
the extra bind values (extra values winning on a name collision), the
result overlaid over the pre-bound initial bindings of pre_bind_variables,
winning every collision with them.  Expressed per name: the extra value if
bound, else the declared parameter value if bound, else the pre-bound
value. -/
theorem c8_binding_overlay (qh : QueryHelper) (nbv : Bindings) (focus v : RDFNode)
    (k : String) (h1 : keysDistinct qh.param_bind_map) (h2 : keysDistinct nbv) :
    aget (computeInitBinds qh (computeBindVals (some qh) (some nbv)) focus v).1 k =
      match aget nbv k with
      | some x => some x
      | none =>
        match aget qh.param_bind_map k with
        | some x => some x
        | none =>
          aget (qh.pre_bind_variables focus v
            (akeys (computeBindVals (some qh) (some nbv)))).1 k := by
  have hbv : computeBindVals (some qh) (some nbv) = aupd qh.param_bind_map nbv := rfl
  have hnd : keysDistinct (computeBindVals (some qh) (some nbv)) := by
    rw [hbv]
    exact keysDistinct_aupd _ _ h1
  unfold computeInitBinds
  rw [aget_aupd _ _ _ hnd, hbv, aget_aupd _ _ _ h2]
  cases aget nbv k <;> cases aget qh.param_bind_map k <;> rfl

/-- Witness for C8 at a concrete helper: the name bound by the extra bind
values wins over both the parameter map and the pre-bound bindings. -/
theorem c8_binding_overlay_witness :
    aget (computeInitBinds
        ⟨[("p", .litStr "param")], fun _ _ _ => ([("p", .litStr "pre"), ("q", .litStr "qpre")], "T"), id⟩
        (computeBindVals
          (some ⟨[("p", .litStr "param")], fun _ _ _ => ([("p", .litStr "pre"), ("q", .litStr "qpre")], "T"), id⟩)
          (some [("p", .litStr "extra")]))
        (.uri "f") (.uri "v")).1 "p" =
      match aget [("p", RDFNode.litStr "extra")] "p" with
      | some x => some x
      | none =>
        match aget [("p", RDFNode.litStr "param")] "p" with
        | some x => some x
        | none =>
          aget ((⟨[("p", .litStr "param")], fun _ _ _ => ([("p", .litStr "pre"), ("q", .litStr "qpre")], "T"), id⟩ : QueryHelper).pre_bind_variables (.uri "f") (.uri "v")
            (akeys (computeBindVals
              (some ⟨[("p", .litStr "param")], fun _ _ _ => ([("p", .litStr "pre"), ("q", .litStr "qpre")], "T"), id⟩)
              (some [("p", .litStr "extra")])))).1 "p" :=
  c8_binding_overlay
    ⟨[("p", .litStr "param")], fun _ _ _ => ([("p", .litStr "pre"), ("q", .litStr "qpre")], "T"), id⟩
    [("p", .litStr "extra")] (.uri "f") (.uri "v") "p" (by decide) (by decide)

/-! ### Claim C6: interpretation of ASK answers -/

theorem mem_sadd {α : Type} [DecidableEq α] (s : List α) (a b : α) :
    b ∈ sadd s a ↔ b ∈ s ∨ b = a := by
  by_cases h : a ∈ s
  · rw [sadd, if_pos h]
    constructor
    · exact fun hb => Or.inl hb
    · rintro (hb | hb)
      · exact hb
      · exact hb ▸ h
  · rw [sadd, if_neg h]
    simp

theorem askValidateAux_error_of_none (qt : String) (qh : Option QueryHelper)
    (bindVals : Bindings) (focus : RDFNode) (exec : String → Bindings → Option Bool) :
    ∀ (vns : List RDFNode) (acc : List (RDFNode × Signal)),
      (∃ v ∈ vns, askAnswerFor qt qh bindVals focus v exec = none) →
      askValidateAux qt qh bindVals focus exec vns acc =
        Except.error "ASK Query did not return an askAnswer." := by
  intro vns
  induction vns with
  | nil => rintro acc ⟨v, hv, _⟩; exact absurd hv (List.not_mem_nil v)
  | cons v rest ih =>
    rintro acc ⟨w, hw, hnone⟩
    rcases hans : askAnswerFor qt qh bindVals focus v exec with _ | a
    · rw [askValidateAux, hans]
    · rw [askValidateAux, hans]
      rcases List.mem_cons.mp hw with hww | hww
      · rw [hww] at hnone
        rw [hnone] at hans
        exact absurd hans (by simp)
      · exact ih _ ⟨w, hww, hnone⟩

theorem askValidateAux_ok_mem (qt : String) (qh : Option QueryHelper)
    (bindVals : Bindings) (focus : RDFNode) (exec : String → Bindings → Option Bool) :
    ∀ (vns : List RDFNode) (acc l : List (RDFNode × Signal)),
      askValidateAux qt qh bindVals focus exec vns acc = Except.ok l →
      ∀ x : RDFNode × Signal, x ∈ l ↔ x ∈ acc ∨
        (x.1 ∈ vns ∧ x.2 = Signal.bool false ∧
          askAnswerFor qt qh bindVals focus x.1 exec = some false) := by
  intro vns
  induction vns with
  | nil =>
    intro acc l hl x
    rw [askValidateAux] at hl
    cases hl
    simp
  | cons v rest ih =>
    intro acc l hl x
    rcases hans : askAnswerFor qt qh bindVals focus v exec with _ | a
    · rw [askValidateAux, hans] at hl
      cases hl
    · rw [askValidateAux, hans] at hl
      cases a
      · replace hl : askValidateAux qt qh bindVals focus exec rest
            (sadd acc (v, Signal.bool false)) = Except.ok l := hl
        rw [ih _ _ hl x, mem_sadd]
        constructor
        · rintro ((hx | hx) | hx)
          · exact Or.inl hx
          · refine Or.inr ⟨?_, ?_, ?_⟩
            · rw [hx]; exact List.mem_cons_self v rest
            · rw [hx]
            · rw [hx]; exact hans
          · exact Or.inr ⟨List.mem_cons_of_mem v hx.1, hx.2.1, hx.2.2⟩
        · rintro (hx | ⟨hmem, hsig, hfalse⟩)
          · exact Or.inl (Or.inl hx)
          · rcases List.mem_cons.mp hmem with hv | hv
            · refine Or.inl (Or.inr ?_)
              obtain ⟨x1, x2⟩ := x
              simp only at hv hsig
              rw [hv, hsig]
            · exact Or.inr ⟨hv, hsig, hfalse⟩
      · replace hl : askValidateAux qt qh bindVals focus exec rest acc = Except.ok l := hl
        rw [ih _ _ hl x]
        constructor
        · rintro (hx | hx)
          · exact Or.inl hx
          · exact Or.inr ⟨List.mem_cons_of_mem v hx.1, hx.2.1, hx.2.2⟩
        · rintro (hx | ⟨hmem, hsig, hfalse⟩)
          · exact Or.inl hx
          · rcases List.mem_cons.mp hmem with hv | hv
            · rw [hv] at hfalse
              rw [hfalse] at hans
              cases hans
            · exact Or.inr ⟨hv, hsig, hfalse⟩

/-- Claim C6: in AskConstraintValidator.validate, a value node whose query
execution yields no interpretable boolean answer makes the whole call raise
the ValidationFailure; otherwise the returned set contains exactly the
signals (v, False) for the value nodes whose answer was False, and nothing
for the value nodes whose answer was True. -/
theorem c6_ask_interpretation (qt : String) (qh : Option QueryHelper)
    (nbv : Option Bindings) (focus : RDFNode)
    (exec : String → Bindings → Option Bool) (vns : List RDFNode) :
    ((∃ v ∈ vns, askAnswerFor qt qh (computeBindVals qh nbv) focus v exec = none) →
      askValidate qt qh nbv focus vns exec =
        Except.error "ASK Query did not return an askAnswer.") ∧
    (∀ l, askValidate qt qh nbv focus vns exec = Except.ok l →
      ∀ v s, (v, s) ∈ l ↔
        v ∈ vns ∧ s = Signal.bool false ∧
          askAnswerFor qt qh (computeBindVals qh nbv) focus v exec = some false) := by
  constructor
  · intro h
    exact askValidateAux_error_of_none qt qh _ focus exec vns [] h
  · intro l hl v s
    have hx := askValidateAux_ok_mem qt qh _ focus exec vns [] l hl (v, s)
    simpa using hx

/-- Witness for C6: a query engine with no askAnswer makes validate raise
the ValidationFailure. -/
theorem c6_ask_interpretation_witness :
    askValidate "ASK" none none (.uri "f") [.uri "bad"] (fun _ _ => none) =
      Except.error "ASK Query did not return an askAnswer." :=
  (c6_ask_interpretation "ASK" none none (.uri "f") (fun _ _ => none) [.uri "bad"]).1
    ⟨.uri "bad", by simp, rfl⟩

/-! ### Claim C5: ValidationFailure aborts evaluate -/

theorem processViolation_true (env : EvalEnv) (f : RDFNode) (acc : List RDFNode)
    (pv : RDFNode × Signal) (h : pv.2 = Signal.bool true) :
    processViolation env f acc pv =
      Except.error "Validation Failure generated by SPARQLConstraint." := by
  obtain ⟨val, sig⟩ := pv
  simp only at h
  rw [h]
  rfl

theorem processViolation_ok_of_not_true (env : EvalEnv) (f : RDFNode)
    (acc : List RDFNode) (pv : RDFNode × Signal) (h : pv.2 ≠ Signal.bool true) :
    ∃ rp, processViolation env f acc pv = Except.ok rp := by
  obtain ⟨val, sig⟩ := pv
  cases sig with
  | bool b =>
    cases b
    · exact ⟨_, rfl⟩
    · exact absurd rfl h
  | tuple t p v => exact ⟨_, rfl⟩

theorem processViolations_ok_no_true (env : EvalEnv) (f : RDFNode) :
    ∀ (viols : List (RDFNode × Signal)) (acc : List RDFNode) (rs : List Report × List RDFNode),
      processViolations env f viols acc = Except.ok rs →
      ∀ s ∈ viols, s.2 ≠ Signal.bool true := by
  intro viols
  induction viols with
  | nil => intro acc rs _ s hs; exact absurd hs (List.not_mem_nil s)
  | cons pv rest ih =>
    intro acc rs hok s hs
    rw [processViolations] at hok
    rcases hpv : processViolation env f acc pv with e | rp
    · rw [hpv] at hok
      cases hok
    · rw [hpv] at hok
      replace hok : (match processViolations env f rest rp.2 with
        | Except.error e => Except.error e
        | Except.ok rr => Except.ok (rp.1 :: rr.1, rr.2)) = Except.ok rs := hok
      rcases List.mem_cons.mp hs with hsv | hsv
      · intro hcontra
        rw [processViolation_true env f acc pv (hsv ▸ hcontra)] at hpv
        cases hpv
      · rcases hrest : processViolations env f rest rp.2 with e | rr
        · rw [hrest] at hok
          cases hok
        · exact ih rp.2 rr hrest s hsv

theorem processViolations_ok_of_no_true (env : EvalEnv) (f : RDFNode) :
    ∀ (viols : List (RDFNode × Signal)) (acc : List RDFNode),
      (∀ s ∈ viols, s.2 ≠ Signal.bool true) →
      ∃ rs, processViolations env f viols acc = Except.ok rs := by
  intro viols
  induction viols with
  | nil => intro acc _; exact ⟨_, rfl⟩
  | cons pv rest ih =>
    intro acc h
    obtain ⟨rp, hrp⟩ :=
      processViolation_ok_of_not_true env f acc pv (h pv (List.mem_cons_self pv rest))
    obtain ⟨rs, hrs⟩ := ih rp.2 (fun s hs => h s (List.mem_cons_of_mem pv hs))
    refine ⟨(rp.1 :: rs.1, rs.2), ?_⟩
    rw [processViolations, hrp]
    show (match processViolations env f rest rp.2 with
      | Except.error e => Except.error e
      | Except.ok rr => Except.ok (rp.1 :: rr.1, rr.2)) = _
    rw [hrs]

theorem evaluateAux_ok_all_good (env : EvalEnv)
    (validate : RDFNode → List RDFNode → Except String (List (RDFNode × Signal))) :
    ∀ (fvs : List (RDFNode × List RDFNode)) (acc : List RDFNode)
      (reports : List Report) (nc : Bool) (res : Bool × List Report),
      evaluateAux env validate fvs acc reports nc = Except.ok res →
      ∀ p ∈ fvs, ∃ vs, validate p.1 p.2 = Except.ok vs ∧
        ∀ s ∈ vs, s.2 ≠ Signal.bool true := by
  intro fvs
  induction fvs with
  | nil => intro acc reports nc res _ p hp; exact absurd hp (List.not_mem_nil p)
  | cons fv rest ih =>
    intro acc reports nc res hok p hp
    obtain ⟨f, vns⟩ := fv
    rw [evaluateAux] at hok
    rcases hv : validate f vns with e | viols
    · rw [hv] at hok
      cases hok
    · rw [hv] at hok
      replace hok : (match processViolations env f viols acc with
        | Except.error e => Except.error e
        | Except.ok rs =>
          evaluateAux env validate rest rs.2 (reports ++ rs.1) (nc || !viols.isEmpty)) =
          Except.ok res := hok
      rcases hpv : processViolations env f viols acc with e | rs
      · rw [hpv] at hok
        cases hok
      · rw [hpv] at hok
        rcases List.mem_cons.mp hp with hpf | hpf
        · rw [hpf]
          exact ⟨viols, hv, processViolations_ok_no_true env f viols acc rs hpv⟩
        · exact ih _ _ _ _ hok p hpf

theorem evaluateAux_skip_good (env : EvalEnv)
    (validate : RDFNode → List RDFNode → Except String (List (RDFNode × Signal)))
    (f : RDFNode) (vns : List RDFNode) (tail : List (RDFNode × List RDFNode)) (e : String)
    (hf : validate f vns = Except.error e) :
    ∀ (pre : List (RDFNode × List RDFNode)) (acc : List RDFNode)
      (reports : List Report) (nc : Bool),
      (∀ p ∈ pre, ∃ vs, validate p.1 p.2 = Except.ok vs ∧
        ∀ s ∈ vs, s.2 ≠ Signal.bool true) →
      evaluateAux env validate (pre ++ (f, vns) :: tail) acc reports nc =
        Except.error e := by
  intro pre
  induction pre with
  | nil =>
    intro acc reports nc _
    rw [List.nil_append, evaluateAux, hf]
  | cons p pre' ih =>
    intro acc reports nc hgood
    obtain ⟨g, ws⟩ := p
    obtain ⟨vs, hvs, hnt⟩ := hgood (g, ws) (List.mem_cons_self _ _)
    have hvs2 : validate g ws = Except.ok vs := hvs
    obtain ⟨rs, hrs⟩ := processViolations_ok_of_no_true env g vs acc hnt
    rw [List.cons_append, evaluateAux, hvs2]
    show (match processViolations env g vs acc with
      | Except.error e => Except.error e
      | Except.ok rs =>
        evaluateAux env validate (pre' ++ (f, vns) :: tail) rs.2 (reports ++ rs.1)
          (nc || !vs.isEmpty)) = Except.error e
    rw [hrs]
    exact ih _ _ _ (fun q hq => hgood q (List.mem_cons_of_mem _ hq))

/-- Claim C5: if validate raises a ValidationFailure for any focus node, or
any returned signal is the boolean True, evaluate raises a
ValidationFailure and returns no (conforms, reports) pair, so every report
accumulated earlier in the call is discarded; when the failing focus is
reached with only clean foci before it, the ValidationFailure raised by
validate propagates unchanged. -/
theorem c5_failure_aborts (env : EvalEnv)
    (validate : RDFNode → List RDFNode → Except String (List (RDFNode × Signal))) :
    (∀ fvs : List (RDFNode × List RDFNode),
      ((∃ p ∈ fvs, ∃ e, validate p.1 p.2 = Except.error e) ∨
        (∃ p ∈ fvs, ∃ vs, validate p.1 p.2 = Except.ok vs ∧
          ∃ s ∈ vs, s.2 = Signal.bool true)) →
      ∃ e, evaluateBound env validate fvs = Except.error e) ∧
    (∀ (pre : List (RDFNode × List RDFNode)) (f : RDFNode) (vns : List RDFNode)
      (tail : List (RDFNode × List RDFNode)) (e : String),
      (∀ p ∈ pre, ∃ vs, validate p.1 p.2 = Except.ok vs ∧
        ∀ s ∈ vs, s.2 ≠ Signal.bool true) →
      validate f vns = Except.error e →
      evaluateBound env validate (pre ++ (f, vns) :: tail) = Except.error e) := by
  constructor
  · intro fvs hbad
    rcases hres : evaluateBound env validate fvs with e | res
    · exact ⟨e, rfl⟩
    · exfalso
      have hgood := evaluateAux_ok_all_good env validate fvs env.constraintMessages [] false res hres
      rcases hbad with ⟨p, hp, e, he⟩ | ⟨p, hp, vs, hvs, s, hs, htrue⟩
      · obtain ⟨ws, hws, _⟩ := hgood p hp
        rw [he] at hws
        cases hws
      · obtain ⟨ws, hws, hnt⟩ := hgood p hp
        rw [hvs] at hws
        cases hws
        exact hnt s hs htrue
  · intro pre f vns tail e hgood hf
    exact evaluateAux_skip_good env validate f vns tail e hf pre env.constraintMessages [] false hgood

/-- Witness for C5: a validate raising a ValidationFailure makes evaluate
propagate it unchanged, discarding the accumulation. -/
theorem c5_failure_aborts_witness :
    evaluateBound ⟨false, .uri "u", [], fun _ => [], .uri "cc", []⟩
        (fun _ _ => Except.error "user failure") [(.uri "f", [])] =
      Except.error "user failure" :=
  (c5_failure_aborts ⟨false, .uri "u", [], fun _ => [], .uri "cc", []⟩
      (fun _ _ => Except.error "user failure")).2 [] (.uri "f") [] [] "user failure"
    (by simp) rfl

/-! ### Claim C7: the reported value node and its defaults -/

theorem evaluateBound_single (env : EvalEnv)
    (validate : RDFNode → List RDFNode → Except String (List (RDFNode × Signal)))
    (f : RDFNode) (vns : List RDFNode) (val : RDFNode) (sig : Signal)
    (h : validate f vns = Except.ok [(val, sig)]) (rp : Report × List RDFNode)
    (hp : processViolation env f env.constraintMessages (val, sig) = Except.ok rp) :
    evaluateBound env validate [(f, vns)] = Except.ok (false, [rp.1]) := by
  rw [evaluateBound, evaluateAux, h]
  show (match processViolations env f [(val, sig)] env.constraintMessages with
    | Except.error e => Except.error e
    | Except.ok rs =>
      evaluateAux env validate [] rs.2 ([] ++ rs.1)
        (false || !List.isEmpty [(val, sig)])) = _
  have hpv : processViolations env f [(val, sig)] env.constraintMessages =
      Except.ok ([rp.1], rp.2) := by
    rw [processViolations, hp]
    show (match processViolations env f [] rp.2 with
      | Except.error e => Except.error e
      | Except.ok rr => Except.ok (rp.1 :: rr.1, rr.2)) = _
    rw [processViolations]
  rw [hpv]
  rfl

/-- Claim C7: a violation with no explicit value override (a boolean False
signal, or a tuple whose value component is none) yields a report with no
value node on a property shape and with the original value node on a node
shape, while a tuple carrying an explicit value always puts that value in
the report. -/
theorem c7_report_value_default (env : EvalEnv)
    (validate : RDFNode → List RDFNode → Except String (List (RDFNode × Signal)))
    (f : RDFNode) (vns : List RDFNode) (val : RDFNode) (vio : Signal)
    (h : validate f vns = Except.ok [(val, vio)]) :
    (vio = Signal.bool false → ∃ r : Report,
      evaluateBound env validate [(f, vns)] = Except.ok (false, [r]) ∧
      r.value_node = (if env.isPropertyShape then none else some val)) ∧
    (∀ t p, vio = Signal.tuple t p none → ∃ r : Report,
      evaluateBound env validate [(f, vns)] = Except.ok (false, [r]) ∧
      r.value_node = (if env.isPropertyShape then none else some val)) ∧
    (∀ t p v, vio = Signal.tuple t p (some v) → ∃ r : Report,
      evaluateBound env validate [(f, vns)] = Except.ok (false, [r]) ∧
      r.value_node = some v) := by
  refine ⟨?_, ?_, ?_⟩
  · rintro rfl
    obtain ⟨rp, hrp, hval⟩ : ∃ rp,
        processViolation env f env.constraintMessages (val, Signal.bool false) =
          Except.ok rp ∧
        rp.1.value_node = (if env.isPropertyShape then none else some val) :=
      ⟨_, rfl, rfl⟩
    exact ⟨rp.1, evaluateBound_single env validate f vns val _ h rp hrp, hval⟩
  · rintro t p rfl
    obtain ⟨rp, hrp, hval⟩ : ∃ rp,
        processViolation env f env.constraintMessages (val, Signal.tuple t p none) =
          Except.ok rp ∧
        rp.1.value_node = (if env.isPropertyShape then none else some val) :=
      ⟨_, rfl, rfl⟩
    exact ⟨rp.1, evaluateBound_single env validate f vns val _ h rp hrp, hval⟩
  · rintro t p v rfl
    obtain ⟨rp, hrp, hval⟩ : ∃ rp,
        processViolation env f env.constraintMessages (val, Signal.tuple t p (some v)) =
          Except.ok rp ∧
        rp.1.value_node = some v :=
      ⟨_, rfl, rfl⟩
    exact ⟨rp.1, evaluateBound_single env validate f vns val _ h rp hrp, hval⟩

/-- Witness for C7: a property shape with a boolean False signal yields a
report with no value node. -/
theorem c7_report_value_default_witness :
    ∃ r : Report,
      evaluateBound ⟨true, .uri "pth", [], fun _ => [], .uri "cc", []⟩
          (fun _ _ => Except.ok [(.litStr "w", Signal.bool false)])
          [(.uri "f", [.litStr "w"])] = Except.ok (false, [r]) ∧
      r.value_node = (if (⟨true, .uri "pth", [], fun _ => [], .uri "cc", []⟩ : EvalEnv).isPropertyShape
        then none else some (.litStr "w")) :=
  (c7_report_value_default ⟨true, .uri "pth", [], fun _ => [], .uri "cc", []⟩
    (fun _ _ => Except.ok [(.litStr "w", Signal.bool false)])
    (.uri "f") [.litStr "w"] (.litStr "w") (Signal.bool false) rfl).1 rfl

/-! ### Claim C1: the extra_messages list is shared across violations -/

/-- Claim C1 fails on the code: rept_kwargs.copy() is a shallow dict copy,
so every violation's new_kwargs aliases the one extra_messages list, and
each extend accumulates into it.  At this concrete input the first report
carries [v1] but the second carries [v1, v2], not the [v2] that a per-
violation fresh list (constraint extra messages plus the messages bound for
that single violation) would give. -/
theorem c1_extra_messages_shared :
    evaluateBound envN valFalse [(.uri "urn:f", [.litStr "v1", .litStr "v2"])] =
      Except.ok (false,
        [⟨.uri "urn:f", some (.litStr "v1"), none, .uri "urn:cc", [.litStr "v1"]⟩,
         ⟨.uri "urn:f", some (.litStr "v2"), none, .uri "urn:cc",
           [.litStr "v1", .litStr "v2"]⟩]) ∧
    ([RDFNode.litStr "v1", RDFNode.litStr "v2"] : List RDFNode) ≠
      envN.constraintMessages ++ [RDFNode.litStr "v2"] := by
  constructor
  · decide
  · decide

/-! ### Claim C2: which SELECT result rows emit a structured signal -/

theorem mem_foldl_processRow (v : RDFNode) :
    ∀ (rows : List Row) (acc : List (RDFNode × Signal)) (x : RDFNode × Signal),
      x ∈ rows.foldl (processRow v) acc ↔
        x ∈ acc ∨ ∃ r ∈ rows, rowSignal v r = some x := by
  intro rows
  induction rows with
  | nil => intro acc x; simp
  | cons r rest ih =>
    intro acc x
    rw [List.foldl_cons, ih]
    constructor
    · rintro (hx | ⟨r2, hr2, hsig⟩)
      · rw [processRow] at hx
        rcases hsig : rowSignal v r with _ | s
        · rw [hsig] at hx
          exact Or.inl hx
        · rw [hsig] at hx
          rcases (mem_sadd acc s x).mp hx with hxa | hxa
          · exact Or.inl hxa
          · exact Or.inr ⟨r, List.mem_cons_self r rest, by rw [hsig, hxa]⟩
      · exact Or.inr ⟨r2, List.mem_cons_of_mem r hr2, hsig⟩
    · rintro (hx | ⟨r2, hr2, hsig⟩)
      · left
        rw [processRow]
        rcases hs : rowSignal v r with _ | s
        · exact hx
        · exact (mem_sadd acc s x).mpr (Or.inl hx)
      · rcases List.mem_cons.mp hr2 with hrr | hrr
        · left
          rw [processRow, ← hrr, hsig]
          exact (mem_sadd acc x x).mpr (Or.inr rfl)
        · exact Or.inr ⟨r2, hrr, hsig⟩

theorem mem_selectValidateAux (qt : String) (qh : Option QueryHelper)
    (bindVals : Bindings) (focus : RDFNode) (exec : String → Bindings → List Row) :
    ∀ (vns : List RDFNode) (acc : List (RDFNode × Signal)) (x : RDFNode × Signal),
      x ∈ selectValidateAux qt qh bindVals focus exec vns acc ↔
        x ∈ acc ∨ ∃ v ∈ vns,
          ∃ r ∈ exec (queryArgsFor qt qh bindVals focus v).2
              (queryArgsFor qt qh bindVals focus v).1,
            rowSignal v r = some x := by
  intro vns
  induction vns with
  | nil => intro acc x; simp [selectValidateAux]
  | cons v rest ih =>
    intro acc x
    rw [selectValidateAux, ih, mem_foldl_processRow]
    constructor
    · rintro ((hx | ⟨r, hr, hsig⟩) | ⟨w, hw, r, hr, hsig⟩)
      · exact Or.inl hx
      · exact Or.inr ⟨v, List.mem_cons_self v rest, r, hr, hsig⟩
      · exact Or.inr ⟨w, List.mem_cons_of_mem v hw, r, hr, hsig⟩
    · rintro (hx | ⟨w, hw, r, hr, hsig⟩)
      · exact Or.inl (Or.inl hx)
      · rcases List.mem_cons.mp hw with hwv | hwv
        · subst hwv
          exact Or.inl (Or.inr ⟨r, hr, hsig⟩)
        · exact Or.inr ⟨w, hwv, r, hr, hsig⟩

/-- Claim C2 amended: in SelectConstraintValidator.validate a structured
violation signal (v, (this-or-none, path-or-none, value-or-none)) is
emitted for a result row exactly when at least one of the fields path,
value, this is bound to a term that is truthy in the Python sense (the
source tests `if p or v2 or t`, not mere presence); a row with none of
path, value, this, failure bound contributes no signal; and the signals of
a validate call are exactly the row signals of its executed queries. -/
theorem c2_row_signal_truthiness (vn : RDFNode) (r : Row) :
    ((optTruthy (aget r "path") || optTruthy (aget r "value") ||
        optTruthy (aget r "this")) = true →
      rowSignal vn r =
        some (vn, Signal.tuple (aget r "this") (aget r "path") (aget r "value"))) ∧
    ((optTruthy (aget r "path") || optTruthy (aget r "value") ||
        optTruthy (aget r "this")) = false →
      ∀ t p v2, rowSignal vn r ≠ some (vn, Signal.tuple t p v2)) ∧
    (aget r "path" = none → aget r "value" = none → aget r "this" = none →
      aget r "failure" = none → rowSignal vn r = none) ∧
    (∀ (qt : String) (qh : Option QueryHelper) (nbv : Option Bindings)
      (focus : RDFNode) (exec : String → Bindings → List Row)
      (vns : List RDFNode) (x : RDFNode × Signal),
      x ∈ selectValidate qt qh nbv focus vns exec ↔
        ∃ v ∈ vns,
          ∃ row ∈ exec
              (queryArgsFor qt qh (computeBindVals qh nbv) focus v).2
              (queryArgsFor qt qh (computeBindVals qh nbv) focus v).1,
            rowSignal v row = some x) := by
  refine ⟨?_, ?_, ?_, ?_⟩
  · intro h
    rw [rowSignal]
    simp only [h, if_true]
  · intro h t p v2
    rw [rowSignal]
    simp only [h, Bool.false_eq_true, if_false]
    rcases aget r "failure" with _ | f
    · simp
    · by_cases hf : failureTruthy f = true
      · simp [hf]
      · simp [hf]
  · intro h1 h2 h3 h4
    rw [rowSignal]
    simp [h1, h2, h3, h4, optTruthy]
  · intro qt qh nbv focus exec vns x
    rw [selectValidate, mem_selectValidateAux]
    simp

/-- Witness for C2: a row binding value to a non-empty literal emits the
structured signal with that term. -/
theorem c2_row_signal_truthiness_witness :
    rowSignal (.uri "v") [("value", RDFNode.litStr "bad")] =
      some (.uri "v", Signal.tuple
        (aget ([("value", RDFNode.litStr "bad")] : Row) "this")
        (aget ([("value", RDFNode.litStr "bad")] : Row) "path")
        (aget ([("value", RDFNode.litStr "bad")] : Row) "value")) :=
  (c2_row_signal_truthiness (.uri "v") [("value", RDFNode.litStr "bad")]).1 (by decide)

/-- Claim C2 as stated is refuted by a row whose only bound field among
path, value, this is the falsy empty-string literal: the field is present,
yet no signal is emitted. -/
theorem c2_presence_not_sufficient :
    (aget ([("value", RDFNode.litStr "")] : Row) "value").isSome = true ∧
    rowSignal (.uri "v") [("value", RDFNode.litStr "")] = none := by
  decide

/-! ### Claims C4 and C10: cache and constructor idempotence -/

theorem aset_of_aget {κ α : Type} [DecidableEq κ] (d : List (κ × α)) (k : κ) (v : α)
    (h : aget d k = some v) : aset d k v = d := by
  induction d with
  | nil => cases h
  | cons p rest ih =>
    by_cases hp : p.1 = k
    · rw [aget_cons, if_pos hp] at h
      injection h with h
      rw [aset, if_pos hp, ← hp, ← h]
    · rw [aget_cons, if_neg hp] at h
      rw [aset, if_neg hp, ih h]

theorem baseInit_ok_fields (sg : SchemaGraph) (node : RDFNode) (x b : ValidatorInst)
    (h : sparqlValidatorBaseInit sg node x = Except.ok b) :
    b.initialised = true ∧ b.kind = x.kind := by
  rw [sparqlValidatorBaseInit] at h
  split at h
  · injection h with h
    rename_i hini
    rw [← h]
    exact ⟨hini, rfl⟩
  · split at h
    · cases h
    · injection h with h
      rw [← h]
      exact ⟨rfl, rfl⟩

theorem subclassInit_parts (sg : SchemaGraph) (node : RDFNode) (x y : ValidatorInst)
    (h : subclassInit sg node x = Except.ok y) :
    y.initialised = true ∧ y.kind = x.kind ∧ subclassInit sg node y = Except.ok y := by
  rw [subclassInit] at h
  split at h
  · cases h
  · rename_i b hb
    split at h
    · cases h
    · rename_i qt hq
      injection h with h
      obtain ⟨hbini, hbkind⟩ := baseInit_ok_fields sg node x b hb
      subst h
      obtain ⟨bk, bn, bm, bq, bi⟩ := b
      have hbi : bi = true := hbini
      subst hbi
      refine ⟨rfl, hbkind, ?_⟩
      show subclassInit sg node ⟨bk, bn, bm, qt, true⟩ =
        Except.ok ⟨bk, bn, bm, qt, true⟩
      rw [subclassInit, sparqlValidatorBaseInit, if_pos rfl]
      have hq2 : readQueryText sg node bk = Except.ok qt := hq
      show (match readQueryText sg node bk with
        | Except.error e => Except.error e
        | Except.ok qt2 => Except.ok (⟨bk, bn, bm, qt2, true⟩ : ValidatorInst)) =
        Except.ok (⟨bk, bn, bm, qt, true⟩ : ValidatorInst)
      rw [hq2]

theorem pyCall_ok_cache (sg : SchemaGraph) (gid : Nat) (node : RDFNode) (st : PyState)
    (i : Nat) (st1 : PyState) (h : pyCall sg gid node st = (Except.ok i, st1)) :
    ∃ inst, aget st1.cache (gid, pyStr node) = some (i, inst) ∧
      inst.initialised = true ∧ subclassInit sg node inst = Except.ok inst := by
  simp only [pyCall] at h
  split at h
  · rename_i entry heq
    split at h
    · simp at h
    · rename_i inst2 heq2
      injection h with h1 h2
      injection h1 with h1
      obtain ⟨hini, _, hidem⟩ := subclassInit_parts sg node entry.2 inst2 heq2
      refine ⟨inst2, ?_, hini, hidem⟩
      rw [← h2, ← h1]
      show aget (aset st.cache (gid, pyStr node) (entry.1, inst2)) (gid, pyStr node) = _
      rw [aget_aset, if_pos rfl]
  · rename_i heq
    split at h
    · simp at h
    · rename_i k hk
      split at h
      · simp at h
      · rename_i inst hinst
        split at h
        · simp at h
        · rename_i inst2 hinst2
          injection h with h1 h2
          injection h1 with h1
          obtain ⟨hini, _, hidem⟩ := subclassInit_parts sg node inst inst2 hinst2
          refine ⟨inst2, ?_, hini, hidem⟩
          rw [← h2, ← h1]
          show aget (aset (aset st.cache (gid, pyStr node) (st.nextId, inst))
            (gid, pyStr node) (st.nextId, inst2)) (gid, pyStr node) = some (st.nextId, inst2)
          rw [aset_aset, aget_aset, if_pos rfl]

/-- Claim C4: constructing SPARQLConstraintComponentValidator a second time
with the same (schema graph identity, rule node) returns the identity-equal
instance stored by the first construction and leaves the state unchanged,
and re-running the guarded base __init__ on an instance whose initialised
flag is set changes none of its attributes. -/
theorem c4_resolution_idempotent (sg : SchemaGraph) (gid : Nat) (node : RDFNode)
    (st : PyState) :
    (∀ (i : Nat) (st1 : PyState), pyCall sg gid node st = (Except.ok i, st1) →
      pyCall sg gid node st1 = (Except.ok i, st1)) ∧
    (∀ inst : ValidatorInst, inst.initialised = true →
      sparqlValidatorBaseInit sg node inst = Except.ok inst) := by
  constructor
  · intro i st1 h
    obtain ⟨inst, hcache, _, hidem⟩ := pyCall_ok_cache sg gid node st i st1 h
    simp only [pyCall]
    rw [hcache]
    show (match subclassInit sg node inst with
      | Except.error e => ((Except.error e : Except String Nat), st1)
      | Except.ok inst2 =>
        (Except.ok i,
          (⟨aset st1.cache (gid, pyStr node) (i, inst2), st1.nextId⟩ : PyState))) =
      (Except.ok i, st1)
    rw [hidem]
    show ((Except.ok i : Except String Nat),
      (⟨aset st1.cache (gid, pyStr node) (i, inst), st1.nextId⟩ : PyState)) =
      (Except.ok i, st1)
    rw [aset_of_aget st1.cache (gid, pyStr node) (i, inst) hcache]
  · intro inst h
    rw [sparqlValidatorBaseInit, if_pos h]

/-- Witness for C4: resolving the sh:ask rule node of sgAsk a second time
returns the cached identity 0 and the unchanged state. -/
theorem c4_resolution_idempotent_witness :
    pyCall sgAsk 7 (.uri "n") stAsk = (Except.ok 0, stAsk) :=
  (c4_resolution_idempotent sgAsk 7 (.uri "n") ⟨[], 0⟩).1 0 stAsk (by decide)

/-- Claim C10 amended: a second resolution call on the same schema graph
with a rule node of equal string form hits the cache and, when it returns
normally, returns the identity-equal cached instance; but the cached
object's subclass __init__ re-runs on the second node, so the call re-reads
and re-validates the second node's own query predicate (and can therefore
raise instead), while its rdf:type and sh:message predicates are indeed
never read: the outcome depends only on the second node's sh:ask and
sh:select objects. -/
theorem c10_cache_hit_behavior (sg : SchemaGraph) (gid : Nat) (n1 n2 : RDFNode)
    (st st1 : PyState) (i : Nat) (hstr : pyStr n1 = pyStr n2)
    (h : pyCall sg gid n1 st = (Except.ok i, st1)) :
    ((∃ e st2, pyCall sg gid n2 st1 = (Except.error e, st2)) ∨
      (∃ st2, pyCall sg gid n2 st1 = (Except.ok i, st2))) ∧
    (∀ sg2 : SchemaGraph,
      sg.objects n2 SH_ask = sg2.objects n2 SH_ask →
      sg.objects n2 SH_select = sg2.objects n2 SH_select →
      pyCall sg gid n2 st1 = pyCall sg2 gid n2 st1) := by
  obtain ⟨inst, hcache, hini, _⟩ := pyCall_ok_cache sg gid n1 st i st1 h
  have hcache2 : aget st1.cache (gid, pyStr n2) = some (i, inst) := by
    rw [← hstr]
    exact hcache
  constructor
  · rcases hsub : subclassInit sg n2 inst with e | inst2
    · left
      refine ⟨e, st1, ?_⟩
      simp only [pyCall]
      rw [hcache2]
      show (match subclassInit sg n2 inst with
        | Except.error e => ((Except.error e : Except String Nat), st1)
        | Except.ok inst2 =>
          (Except.ok i,
            (⟨aset st1.cache (gid, pyStr n2) (i, inst2), st1.nextId⟩ : PyState))) =
        (Except.error e, st1)
      rw [hsub]
    · right
      refine ⟨⟨aset st1.cache (gid, pyStr n2) (i, inst2), st1.nextId⟩, ?_⟩
      simp only [pyCall]
      rw [hcache2]
      show (match subclassInit sg n2 inst with
        | Except.error e => ((Except.error e : Except String Nat), st1)
        | Except.ok inst2 =>
          (Except.ok i,
            (⟨aset st1.cache (gid, pyStr n2) (i, inst2), st1.nextId⟩ : PyState))) = _
      rw [hsub]
  · intro sg2 hask hsel
    have hrq : readQueryText sg n2 inst.kind = readQueryText sg2 n2 inst.kind := by
      rw [readQueryText, readQueryText]
      cases hk : inst.kind
      · simp only [queryPred]
        rw [hsel]
      · simp only [queryPred]
        rw [hask]
    have hbase : ∀ sgx : SchemaGraph, sparqlValidatorBaseInit sgx n2 inst = Except.ok inst :=
      fun sgx => by rw [sparqlValidatorBaseInit, if_pos hini]
    have hsubeq : subclassInit sg n2 inst = subclassInit sg2 n2 inst := by
      rw [subclassInit, subclassInit, hbase sg, hbase sg2]
      show (match readQueryText sg n2 inst.kind with
        | Except.error e => Except.error e
        | Except.ok qt => Except.ok { inst with query_text := qt }) =
        (match readQueryText sg2 n2 inst.kind with
        | Except.error e => Except.error e
        | Except.ok qt => Except.ok { inst with query_text := qt })
      rw [hrq]
    simp only [pyCall]
    rw [hcache2]
    show (match subclassInit sg n2 inst with
      | Except.error e => ((Except.error e : Except String Nat), st1)
      | Except.ok inst2 =>
        (Except.ok i,
          (⟨aset st1.cache (gid, pyStr n2) (i, inst2), st1.nextId⟩ : PyState))) =
      (match subclassInit sg2 n2 inst with
      | Except.error e => ((Except.error e : Except String Nat), st1)
      | Except.ok inst2 =>
        (Except.ok i,
          (⟨aset st1.cache (gid, pyStr n2) (i, inst2), st1.nextId⟩ : PyState)))
    rw [hsubeq]

/-- Witness for C10's amended claim at the sgAsk graph. -/
theorem c10_cache_hit_behavior_witness :
    ((∃ e st2, pyCall sgAsk 7 (.uri "n") stAsk = (Except.error e, st2)) ∨
      (∃ st2, pyCall sgAsk 7 (.uri "n") stAsk = (Except.ok 0, st2))) ∧
    (∀ sg2 : SchemaGraph,
      sgAsk.objects (.uri "n") SH_ask = sg2.objects (.uri "n") SH_ask →
      sgAsk.objects (.uri "n") SH_select = sg2.objects (.uri "n") SH_select →
      pyCall sgAsk 7 (.uri "n") stAsk = pyCall sg2 7 (.uri "n") stAsk) :=
  c10_cache_hit_behavior sgAsk 7 (.uri "n") (.uri "n") ⟨[], 0⟩ stAsk 0 rfl (by decide)

/-- Claim C10 as stated is refuted: the second resolution call with the
string-equal blank node hits the cache but re-reads that node's sh:ask
predicate and raises a ConstraintLoadError instead of returning the cached
instance. -/
theorem c10_cache_key_reread :
    pyCall sgAsk 7 (.uri "n") ⟨[], 0⟩ = (Except.ok 0, stAsk) ∧
    pyStr (.uri "n") = pyStr (.bnode "n") ∧
    (pyCall sgAsk 7 (.bnode "n") stAsk).1 =
      Except.error "AskValidator must have exactly one value for sh:ask." := by
  decide

/-! ### Claim C9: make_messages and simultaneous substitution -/

theorem replacePyF_nil (pat rep : List Char) : ∀ f : Nat, replacePyF pat rep f [] = [] := by
  intro f
  cases f <;> rfl

theorem replacePyF_fuel (pat rep : List Char) :
    ∀ (f1 : Nat), ∀ (f2 : Nat) (s : List Char), s.length ≤ f1 → s.length ≤ f2 →
      replacePyF pat rep f1 s = replacePyF pat rep f2 s := by
  intro f1
  induction f1 with
  | zero =>
    intro f2 s h1 _
    have hs : s = [] := List.length_eq_zero.mp (Nat.le_zero.mp h1)
    subst hs
    rw [replacePyF_nil, replacePyF_nil]
  | succ g ih =>
    intro f2 s h1 h2
    cases s with
    | nil => rw [replacePyF_nil, replacePyF_nil]
    | cons c cs =>
      cases f2 with
      | zero => exact absurd h2 (by simp)
      | succ h =>
        rw [replacePyF, replacePyF]
        by_cases hcond : pat.isPrefixOf (c :: cs) ∧ pat ≠ []
        · rw [if_pos hcond, if_pos hcond]
          have hplen : 1 ≤ pat.length := by
            cases pat with
            | nil => exact absurd rfl hcond.2
            | cons p pr => simp
          have hdlen : (List.drop pat.length (c :: cs)).length ≤ cs.length := by
            rw [List.length_drop]
            simp only [List.length_cons]
            omega
          have hg : cs.length ≤ g := Nat.le_of_succ_le_succ h1
          have hh : cs.length ≤ h := Nat.le_of_succ_le_succ h2
          rw [ih h (List.drop pat.length (c :: cs)) (Nat.le_trans hdlen hg)
            (Nat.le_trans hdlen hh)]
        · rw [if_neg hcond, if_neg hcond]
          rw [ih h cs (Nat.le_of_succ_le_succ h1) (Nat.le_of_succ_le_succ h2)]

theorem replacePy_pos (pat rep : List Char) (c : Char) (cs : List Char)
    (h1 : pat.isPrefixOf (c :: cs) = true) (h2 : pat ≠ []) :
    replacePy pat rep (c :: cs) =
      rep ++ replacePy pat rep (List.drop pat.length (c :: cs)) := by
  rw [replacePy, replacePy]
  show replacePyF pat rep (cs.length + 1) (c :: cs) = _
  rw [replacePyF, if_pos ⟨h1, h2⟩]
  have hplen : 1 ≤ pat.length := by
    cases pat with
    | nil => exact absurd rfl h2
    | cons p pr => simp
  have hdlen : (List.drop pat.length (c :: cs)).length ≤ cs.length := by
    rw [List.length_drop]
    simp only [List.length_cons]
    omega
  rw [replacePyF_fuel pat rep cs.length (List.drop pat.length (c :: cs)).length
    (List.drop pat.length (c :: cs)) hdlen (Nat.le_refl _)]

theorem replacePy_neg (pat rep : List Char) (c : Char) (cs : List Char)
    (h : ¬(pat.isPrefixOf (c :: cs) = true ∧ pat ≠ [])) :
    replacePy pat rep (c :: cs) = c :: replacePy pat rep cs := by
  rw [replacePy, replacePy]
  show replacePyF pat rep (cs.length + 1) (c :: cs) = _
  rw [replacePyF, if_neg h]

theorem isPref_nil_left (t : List Char) : ([] : List Char).isPrefixOf t = true := by
  cases t <;> rfl

theorem isPref_cons_cons (a b : Char) (as bs : List Char) :
    (a :: as).isPrefixOf (b :: bs) = (a == b && as.isPrefixOf bs) := rfl

theorem replace_skip (pt rep : List Char) :
    ∀ (s t : List Char), lbrace ∉ s →
      replacePy (lbrace :: pt) rep (s ++ t) = s ++ replacePy (lbrace :: pt) rep t := by
  intro s
  induction s with
  | nil => intro t _; rfl
  | cons c s' ih =>
    intro t h
    have hc : c ≠ lbrace := fun hcc => h (hcc ▸ List.mem_cons_self c s')
    have hpre : (lbrace :: pt).isPrefixOf (c :: (s' ++ t)) = false := by
      rw [isPref_cons_cons, beq_eq_false_iff_ne.mpr (fun hcc => hc hcc.symm)]
      rfl
    rw [List.cons_append, replacePy_neg _ _ _ _ (by rw [hpre]; simp)]
    rw [ih t (fun hm => h (List.mem_cons_of_mem c hm))]
    rfl

theorem replace_pass (pt rep : List Char) (s : List Char) (h : lbrace ∉ s) :
    replacePy (lbrace :: pt) rep s = s := by
  have hskip := replace_skip pt rep s [] h
  rw [List.append_nil] at hskip
  rw [hskip, show replacePy (lbrace :: pt) rep [] = [] from rfl, List.append_nil]

theorem isPref_append_self : ∀ (p t : List Char), p.isPrefixOf (p ++ t) = true := by
  intro p
  induction p with
  | nil => intro t; exact isPref_nil_left t
  | cons a p' ih =>
    intro t
    rw [List.cons_append, isPref_cons_cons, beq_self_eq_true, ih t]
    rfl

theorem replace_consume (pat rep t : List Char) (h : pat ≠ []) :
    replacePy pat rep (pat ++ t) = rep ++ replacePy pat rep t := by
  cases pat with
  | nil => exact absurd rfl h
  | cons p0 pr =>
    rw [List.cons_append, replacePy_pos _ _ _ _ (by
      rw [← List.cons_append]
      exact isPref_append_self (p0 :: pr) t) h]
    rw [← List.cons_append, List.drop_left]

theorem ph_pref_names : ∀ (a n t : List Char), rbrace ∉ a → rbrace ∉ n →
    (a ++ [rbrace]).isPrefixOf (n ++ [rbrace] ++ t) = true → a = n := by
  intro a
  induction a with
  | nil =>
    intro n t _ hn hpre
    cases n with
    | nil => rfl
    | cons m n' =>
      exfalso
      rw [List.nil_append, List.cons_append, List.cons_append] at hpre
      rw [show ([rbrace] : List Char) = rbrace :: [] from rfl, isPref_cons_cons,
        Bool.and_eq_true] at hpre
      exact hn (beq_iff_eq.mp hpre.1 ▸ List.mem_cons_self m n')
  | cons x a' ih =>
    intro n t ha hn hpre
    cases n with
    | nil =>
      exfalso
      rw [List.nil_append, List.cons_append] at hpre
      rw [show ([rbrace] : List Char) ++ t = rbrace :: t from rfl, isPref_cons_cons,
        Bool.and_eq_true] at hpre
      exact ha (beq_iff_eq.mp hpre.1 ▸ List.mem_cons_self x a')
    | cons y n' =>
      rw [List.cons_append, List.cons_append, List.cons_append, isPref_cons_cons,
        Bool.and_eq_true] at hpre
      obtain ⟨hxy, hrest⟩ := hpre
      have hxx : x = y := beq_iff_eq.mp hxy
      have ha' : rbrace ∉ a' := fun hm => ha (List.mem_cons_of_mem x hm)
      have hn' : rbrace ∉ n' := fun hm => hn (List.mem_cons_of_mem y hm)
      rw [hxx, ih n' t ha' hn' hrest]

theorem string_toList_inj (a b : String) (h : a.toList = b.toList) : a = b := by
  cases a with
  | mk la =>
    cases b with
    | mk lb =>
      have h2 : la = lb := h
      rw [h2]

theorem phChars_shape (n : String) (t : List Char) :
    phChars n ++ t = lbrace :: dollar :: (n.toList ++ [rbrace] ++ t) := by
  simp [phChars, List.cons_append, List.append_assoc]

theorem replace_other (a n : String) (rep t : List Char) (hne : a ≠ n)
    (ha : rbrace ∉ a.toList) (hn1 : rbrace ∉ n.toList) (hn2 : lbrace ∉ n.toList) :
    replacePy (phChars a) rep (phChars n ++ t) =
      phChars n ++ replacePy (phChars a) rep t := by
  have hpre : (phChars a).isPrefixOf (phChars n ++ t) = false := by
    by_contra hcon
    rw [Bool.not_eq_false] at hcon
    rw [phChars_shape] at hcon
    rw [show phChars a = lbrace :: dollar :: (a.toList ++ [rbrace]) from rfl] at hcon
    rw [isPref_cons_cons, Bool.and_eq_true, isPref_cons_cons, Bool.and_eq_true] at hcon
    exact hne (string_toList_inj a n
      (ph_pref_names a.toList n.toList t ha hn1 hcon.2.2))
  have hsplit : phChars n ++ t = lbrace :: ((dollar :: (n.toList ++ [rbrace])) ++ t) := by
    simp [phChars, List.cons_append, List.append_assoc]
  rw [hsplit]
  rw [replacePy_neg _ _ _ _ (by
    rw [← hsplit, hpre]
    simp)]
  rw [show phChars a = lbrace :: (dollar :: (a.toList ++ [rbrace])) from rfl]
  rw [replace_skip _ _ _ t (by
    intro hm
    rcases List.mem_cons.mp hm with hm | hm
    · exact absurd hm.symm (by decide)
    · rcases List.mem_append.mp hm with hm | hm
      · exact hn2 hm
      · exact absurd (List.mem_singleton.mp hm) (by decide))]
  rw [show (lbrace :: (dollar :: (a.toList ++ [rbrace]))) = phChars a from rfl]
  simp [phChars, List.cons_append, List.append_assoc]

theorem applyParams_cons (av : String × String) (m' : List (String × String))
    (s : List Char) :
    applyParamsL (av :: m') s =
      applyParamsL m' (replacePy (phChars av.1) av.2.toList s) := rfl

theorem phChars_head (n : String) :
    phChars n = lbrace :: (dollar :: (n.toList ++ [rbrace])) := rfl

theorem applyParams_pass : ∀ (m : List (String × String)), pmOK m →
    ∀ L : List Char, lbrace ∉ L → applyParamsL m L = L := by
  intro m
  induction m with
  | nil => intro _ L _; rfl
  | cons av m' ih =>
    intro hm L hL
    rw [applyParams_cons, phChars_head, replace_pass _ _ L hL]
    exact ih (fun x hx => hm x (List.mem_cons_of_mem av hx)) L hL

theorem applyParams_skip : ∀ (m : List (String × String)), pmOK m →
    ∀ (L t : List Char), lbrace ∉ L →
      applyParamsL m (L ++ t) = L ++ applyParamsL m t := by
  intro m
  induction m with
  | nil => intro _ L t _; rfl
  | cons av m' ih =>
    intro hm L t hL
    have hrep : replacePy (phChars av.1) av.2.toList (L ++ t) =
        L ++ replacePy (phChars av.1) av.2.toList t := by
      rw [phChars_head]
      exact replace_skip _ _ L t hL
    rw [applyParams_cons, hrep,
      ih (fun x hx => hm x (List.mem_cons_of_mem av hx)) L _ hL, applyParams_cons]

theorem applyParams_ph : ∀ (m : List (String × String)), pmOK m → ∀ (n : String),
    lbrace ∉ n.toList → rbrace ∉ n.toList → ∀ t : List Char,
    applyParamsL m (phChars n ++ t) =
      (match aget m n with
        | some w => w.toList
        | none => phChars n) ++ applyParamsL m t := by
  intro m
  induction m with
  | nil => intro _ n _ _ t; rfl
  | cons av m' ih =>
    intro hm n hn1 hn2 t
    obtain ⟨a, w⟩ := av
    have htail : pmOK m' := fun x hx => hm x (List.mem_cons_of_mem (a, w) hx)
    have hhead := hm (a, w) (List.mem_cons_self (a, w) m')
    by_cases han : a = n
    · subst han
      rw [applyParams_cons]
      have hcons : replacePy (phChars a) w.toList (phChars a ++ t) =
          w.toList ++ replacePy (phChars a) w.toList t :=
        replace_consume _ _ _ (by rw [phChars_head]; simp)
      rw [hcons, applyParams_skip m' htail w.toList _ hhead.2]
      rw [aget_cons, if_pos rfl, applyParams_cons]
    · rw [applyParams_cons]
      have hoth : replacePy (phChars a) w.toList (phChars n ++ t) =
          phChars n ++ replacePy (phChars a) w.toList t :=
        replace_other a n w.toList t han hhead.1 hn2 hn1
      rw [hoth, ih htail n hn1 hn2 (replacePy (phChars a) w.toList t)]
      rw [aget_cons, if_neg (show ¬(a, w).1 = n from han), applyParams_cons]

theorem applyParams_simultaneous : ∀ (segs : List (String × String)) (tl : String)
    (m : List (String × String)), segsOK segs → lbrace ∉ tl.toList → pmOK m →
    applyParamsL m (joinTemplateL segs tl) = specSubstL m segs tl := by
  intro segs
  induction segs with
  | nil =>
    intro tl m _ ht hm
    rw [joinTemplateL, specSubstL]
    exact applyParams_pass m hm tl.toList ht
  | cons sg rest ih =>
    intro tl m hs ht hm
    obtain ⟨s, n⟩ := sg
    obtain ⟨hls, hln, hrn⟩ := hs (s, n) (List.mem_cons_self (s, n) rest)
    have htail : segsOK rest := fun x hx => hs x (List.mem_cons_of_mem (s, n) hx)
    have hjoin : joinTemplateL ((s, n) :: rest) tl =
        s.toList ++ (phChars n ++ joinTemplateL rest tl) := by
      rw [joinTemplateL, List.append_assoc]
    rw [hjoin, applyParams_skip m hm s.toList _ hls,
      applyParams_ph m hm n hln hrn (joinTemplateL rest tl),
      ih tl m htail ht hm, specSubstL, List.append_assoc]

/-- Claim C9 amended: make_messages substitutes the parameters one at a
time with str.replace, in map order, so placeholder text contained in a
substituted value is itself substituted by later passes (the
counterexample); when no parameter value contains an opening brace and the
template decomposes into brace-free literal segments and brace-free
placeholder names, the result is exactly the simultaneous substitution:
every occurrence of each in-map placeholder replaced by the string form of
its bound value, all other template text preserved verbatim. -/
theorem c9_substitution (tmpls : List (List (String × String) × String))
    (pm : List (String × RDFNode))
    (hseg : ∀ p ∈ tmpls, segsOK p.1 ∧ lbrace ∉ p.2.toList)
    (hpm : pmOK (pmStr pm)) :
    make_messages (tmpls.map (fun p => joinTemplate p.1 p.2)) pm =
      tmpls.map (fun p => specSubstMessage p.1 p.2 pm) := by
  rw [make_messages, List.map_map]
  apply List.map_congr_left
  intro p hp
  obtain ⟨segs, tl⟩ := p
  obtain ⟨hsok, htl⟩ := hseg (segs, tl) hp
  show (applyParamsL (pmStr pm) (joinTemplate segs tl).toList).asString =
    specSubstMessage segs tl pm
  rw [specSubstMessage,
    show (joinTemplate segs tl).toList = joinTemplateL segs tl from rfl,
    applyParams_simultaneous segs tl (pmStr pm) hsok htl hpm]

/-- Witness for C9's amended claim at a concrete template and map. -/
theorem c9_substitution_witness :
    make_messages ([([("Value ", "value")], " is bad")].map
        (fun p => joinTemplate p.1 p.2)) [("value", .litStr "V")] =
      [([("Value ", "value")], " is bad")].map
        (fun p => specSubstMessage p.1 p.2 [("value", .litStr "V")]) :=
  c9_substitution [([("Value ", "value")], " is bad")] [("value", .litStr "V")]
    (by decide) (by decide)

/-- Claim C9 as stated is refuted: with the map a maps-to "\x7b$b\x7d",
b maps-to "Z" (in that order), the template x\x7b$a\x7dy comes out as xZy,
not as the x\x7b$b\x7dy demanded by replacing each placeholder by the
string form of its own bound value and keeping all other text. -/
theorem c9_sequential_substitution_differs :
    make_messages [joinTemplate [("x", "a")] "y"]
        [("a", .litStr "\x7b$b\x7d"), ("b", .litStr "Z")] = ["xZy"] ∧
    specSubstMessage [("x", "a")] "y"
        [("a", .litStr "\x7b$b\x7d"), ("b", .litStr "Z")] = "x\x7b$b\x7dy" ∧
    ("xZy" : String) ≠ "x\x7b$b\x7dy" := by
  refine ⟨by decide, by decide, by decide⟩
